import Mathlib

/-!
# Interval scheduling and timeline layout engine: verification

Shallow embedding of the scheduling core of the project-scheduler repository
(React/TypeScript): day-granularity date arithmetic, the conflict detector,
the calendar lane-packing loop, the drag/resize reschedule handlers, and the
group-coherence commands, together with theorems checking the specification's
claims about them.

Dates are modelled as integers counting days since the JavaScript epoch
(1970-01-01, which was a Thursday); every date handled by the engine is
day-aligned, so `date-fns` calls reduce to integer arithmetic.
-/

namespace Sched

/-- `date-fns` `addDays`: shift a day-aligned date by `n` calendar days. -/
def addDays (d n : Int) : Int := d + n

/-- `date-fns` `differenceInDays` on day-aligned dates: exact signed day count. -/
def differenceInDays (a b : Int) : Int := a - b

/-- `date-fns` `isWeekend`: epoch day 0 is a Thursday, so day `d` is a Saturday
when `d % 7 = 2` and a Sunday when `d % 7 = 3`. -/
def isWeekend (d : Int) : Bool := d % 7 == 2 || d % 7 == 3

/-- Number of non-weekend days in the window `[s, s + n)`. -/
def weekdayCount (s : Int) : Nat → Nat
  | 0 => 0
  | n + 1 => weekdayCount s n + (if isWeekend (s + n) then 0 else 1)

/-- `date-fns` `differenceInBusinessDays e s`: the library splits `e - s` into
whole weeks (5 business days each) plus a walk over the remaining days.  On
day-aligned dates that computation equals the count of non-weekend days in the
half-open interval from `s` (inclusive) to `e` (exclusive) when `s ≤ e`, and
the negated count over `(e, s]` otherwise. -/
def differenceInBusinessDays (e s : Int) : Int :=
  if s ≤ e then (weekdayCount s (e - s).toNat : Int)
  else -(weekdayCount (e + 1) (s - e).toNat : Int)

/-- The schedulable unit (`Task` in `types.ts`).  `end` is written `«end»`
because it is a Lean keyword. -/
structure Task where
  id : Int
  name : String
  start : Int
  «end» : Int
  progress : Int := 0
  predecessorId : Option Int := none
  groupId : Option String := none
  executingUnit : Option String := none
  notes : Option String := none
  deriving Repr, DecidableEq

/-- `TaskGroup` in `types.ts`. -/
structure TaskGroup where
  id : String
  name : Option String := none
  taskIds : List Int
  color : String
  deriving Repr, DecidableEq

/-- A predecessor-ordering warning (`Warning` in `types.ts`). -/
structure Warning where
  taskId : Int
  message : String
  deriving Repr, DecidableEq

/-- The item/group collection of one project that the mutation handlers
transform (the `tasks` and `taskGroups` fields of `Project`). -/
structure ProjState where
  tasks : List Task
  taskGroups : List TaskGroup
  deriving Repr, DecidableEq

/-- JavaScript truthiness of an optional number (`undefined` and `0` are
falsy), as tested by `if (task.predecessorId)`. -/
def truthyNum : Option Int → Bool
  | none => false
  | some n => n != 0

/-- JavaScript truthiness of an optional string (`undefined` and `""` are
falsy), as tested by `if (taskToMove.groupId)`. -/
def truthyStr : Option String → Bool
  | none => false
  | some s => s != ""

/-- The warning text built by `checkForWarnings`. -/
def warningMessage (t p : Task) : String :=
  "\"" ++ t.name ++ "\" 的開始時間早於其前置作業 \"" ++ p.name ++ "\" 的結束時間。"

/-- `checkForWarnings` (App): one pass over the collection; a task with a
truthy `predecessorId` that resolves (first match by id) to a predecessor
whose end is after the task's start contributes one warning. -/
def checkForWarnings (tasks : List Task) : List Warning :=
  tasks.filterMap (fun t =>
    if truthyNum t.predecessorId then
      match tasks.find? (fun p => some p.id == t.predecessorId) with
      | some p =>
          if t.start < p.«end» then some ⟨t.id, warningMessage t p⟩ else none
      | none => none
    else none)

/-! ## Reschedule engine: Move (`handleDragTask` in the App component)

Moving a task to a new start date computes a calendar-day delta.  A grouped
task shifts every member of its group; each affected task's new end is its new
start plus its *business-day* span (`differenceInBusinessDays`) added back as
calendar days, exactly as the source does. -/

/-- `handleDragTask(taskId, newStartDate)`. -/
def handleDragTask (st : ProjState) (taskId : Int) (newStartDate : Int) : ProjState :=
  match st.tasks.find? (fun t => t.id == taskId) with
  | none => st
  | some taskToMove =>
    let deltaDays := differenceInDays newStartDate taskToMove.start
    if deltaDays = 0 then st
    else if truthyStr taskToMove.groupId then
      match st.taskGroups.find? (fun g => some g.id == taskToMove.groupId) with
      | some group =>
          { st with tasks := st.tasks.map (fun task =>
              if group.taskIds.contains task.id then
                let duration := differenceInBusinessDays task.«end» task.start
                let newStart := addDays task.start deltaDays
                { task with start := newStart, «end» := addDays newStart duration }
              else task) }
      | none => st
    else
      let duration := differenceInBusinessDays taskToMove.«end» taskToMove.start
      let newEndDate := addDays newStartDate duration
      { st with tasks := st.tasks.map (fun task =>
          if task.id == taskId then
            { task with start := newStartDate, «end» := newEndDate }
          else task) }

/-! ## Reschedule engine: Resize

The calendar and Gantt views clamp the dragged boundary against the task's
other boundary in their `handleMouseMove` handlers and hand the resulting
`(start, end)` pair to the App via `onResizeTask`. -/

/-- Which boundary a resize drags. -/
inductive Side
  | start
  | «end»
  deriving Repr, DecidableEq

/-- The clamped preview pair computed by `handleMouseMove` in
`CalendarView`/`GanttChartView`: dragging the start clamps it at the current
end (`isAfter(currentDate, originalTask.end) ? originalTask.end :
currentDate`), dragging the end clamps it at the current start. -/
def computeResizePreview (originalTask : Task) (side : Side) (currentDate : Int) :
    Int × Int :=
  match side with
  | .start =>
      (if originalTask.«end» < currentDate then originalTask.«end» else currentDate,
       originalTask.«end»)
  | .«end» =>
      (originalTask.start,
       if currentDate < originalTask.start then originalTask.start else currentDate)

/-- Modelled from the spec: the App-side `onResizeTask` handler is not among
the source files (only the views that call it are).  Per §4.4, "Resize never
touches Group siblings — it is a single-item operation": it stores the clamped
pair on the resized task alone and leaves every other task and all groups
unchanged. -/
def handleResizeTask (st : ProjState) (taskId : Int) (newStart newEnd : Int) :
    ProjState :=
  { st with tasks := st.tasks.map (fun t =>
      if t.id == taskId then { t with start := newStart, «end» := newEnd } else t) }

/-- A full resize command: the view computes the clamped preview for the
resized task and the App applies it. -/
def resizeItem (st : ProjState) (taskId : Int) (side : Side) (currentDate : Int) :
    ProjState :=
  match st.tasks.find? (fun t => t.id == taskId) with
  | none => st
  | some task =>
      let p := computeResizePreview task side currentDate
      handleResizeTask st taskId p.1 p.2

/-! ## Lane packing (the per-week layout loop in `CalendarView`)

A week window is 7 consecutive days starting at `weekStart`.  Tasks
overlapping the window are sorted with the view's comparator and packed
first-fit into rows of 7 per-day occupancy cells. -/

/-- The week-overlap filter `task.start <= weekEnd && task.end >= weekStart`
with `weekEnd = weekStart + 6`. -/
def windowFilter (weekStart : Int) (t : Task) : Bool :=
  t.start ≤ weekStart + 6 && weekStart ≤ t.«end»

/-- The view's sort comparator
`(a, b) => a.start - b.start || (b.end - a.start) - (a.end - a.start)`. -/
def taskCmp (a b : Task) : Int :=
  if a.start - b.start ≠ 0 then a.start - b.start
  else (b.«end» - a.start) - (a.«end» - a.start)

/-- `a` may precede `b` under the comparator (`taskCmp a b ≤ 0`).
JavaScript's `Array.prototype.sort` is stable, and a stable sort under a
consistent comparator has a unique result, which insertion sort over this
relation also computes. -/
def taskSortLe (a b : Task) : Prop := taskCmp a b ≤ 0

instance : DecidableRel taskSortLe := fun a b => Int.decLe _ _

/-- `tasksInWeek`: the tasks overlapping the week, in the order the packing
loop processes them. -/
def tasksInWeek (tasks : List Task) (weekStart : Int) : List Task :=
  List.insertionSort taskSortLe (tasks.filter (windowFilter weekStart))

/-- Window-clipped first day offset:
`isBefore(task.start, weekStart) ? 0 : differenceInDays(task.start, weekStart)`.
For tasks passing `windowFilter` the difference is in `[0, 6]`, so `toNat` is
exact. -/
def startDayOf (weekStart : Int) (t : Task) : Nat :=
  if t.start < weekStart then 0 else (differenceInDays t.start weekStart).toNat

/-- Window-clipped last day offset:
`isAfter(task.end, weekEnd) ? 6 : differenceInDays(task.end, weekStart)`. -/
def endDayOf (weekStart : Int) (t : Task) : Nat :=
  if weekStart + 6 < t.«end» then 6 else (differenceInDays t.«end» weekStart).toNat

/-- A fresh row of 7 unoccupied day cells (`Array(7).fill(null)`); `true`
marks a cell holding a task. -/
def emptyRow : List Bool := List.replicate 7 false

/-- Mark cells `s..e` of a row occupied
(`for (let i = startDay; i <= endDay; i++) rows[targetRow][i] = task`). -/
def occupy (row : List Bool) (s e : Nat) : List Bool :=
  (List.range row.length).map (fun i => if s ≤ i && i ≤ e then true else row.getD i false)

/-- `canPlace`: no cell of the slice `s..e` is occupied
(`!rows[targetRow].slice(startDay, endDay + 1).some(Boolean)`). -/
def spanClear (row : List Bool) (s e : Nat) : Bool :=
  !(((row.take (e + 1)).drop s).any id)

/-- The `while (true)` placement scan: try rows from index 0 upward, place in
the first row whose `s..e` cells are clear, appending a fresh row when all
existing rows are blocked (a fresh row is always clear, so the source's loop
stops there).  Returns the chosen row index and the updated rows. -/
def placeTask (s e : Nat) : List (List Bool) → Nat × List (List Bool)
  | [] => (0, [occupy emptyRow s e])
  | r :: rs =>
    if spanClear r s e then (0, occupy r s e :: rs)
    else
      let p := placeTask s e rs
      (p.1 + 1, r :: p.2)

/-- One entry of `taskLayoutRows`. -/
structure Placement where
  task : Task
  row : Nat
  startDay : Nat
  span : Nat
  deriving Repr, DecidableEq

/-- One iteration of the packing loop body. -/
def packWeekStep (weekStart : Int) (acc : List Placement × List (List Bool))
    (t : Task) : List Placement × List (List Bool) :=
  let s := startDayOf weekStart t
  let e := endDayOf weekStart t
  let p := placeTask s e acc.2
  (acc.1 ++ [⟨t, p.1, s, e + 1 - s⟩], p.2)

/-- The whole per-week packing: layout entries in placement order plus the
final occupancy rows. -/
def packWeek (tasks : List Task) (weekStart : Int) : List Placement × List (List Bool) :=
  (tasksInWeek tasks weekStart).foldl (packWeekStep weekStart) ([], [])

/-! ## Group creation (`handleCreateGroup`) -/

/-- The palette the App cycles through for new groups. -/
def groupColors : List String :=
  ["#f87171", "#fb923c", "#fbbf24", "#a3e635", "#4ade80",
   "#34d399", "#22d3ee", "#60a5fa", "#818cf8", "#c084fc"]

/-- `selectedTaskIds.some(id => { const task = tasks.find(t => t.id === id);
return task && task.groupId; })`: some candidate resolves to a task whose
`groupId` is truthy. -/
def anyCandidateGrouped (st : ProjState) (selectedTaskIds : List Int) : Bool :=
  selectedTaskIds.any (fun i =>
    match st.tasks.find? (fun t => t.id == i) with
    | some task => truthyStr task.groupId
    | none => false)

/-- The notification shown when a candidate is already grouped. -/
def createGroupErrorMessage : String := "選取的任務中，有任務已被關聯，無法重複關聯。"

/-- `handleCreateGroup`.  The fresh group id is `group-${Date.now()}` in the
source; the clock value is external, so the id is taken as a parameter.  The
second component is the notification surfaced to the user, if any: fewer than
two candidates return silently (`if (selectedTaskIds.length < 2) return;`)
with no notification. -/
def handleCreateGroup (st : ProjState) (selectedTaskIds : List Int)
    (newGroupId : String) : ProjState × Option String :=
  if selectedTaskIds.length < 2 then (st, none)
  else if anyCandidateGrouped st selectedTaskIds then
    (st, some createGroupErrorMessage)
  else
    let randomColor := groupColors.getD (st.taskGroups.length % groupColors.length) ""
    let newGroup : TaskGroup :=
      { id := newGroupId, taskIds := selectedTaskIds, color := randomColor }
    ({ tasks := st.tasks.map (fun task =>
          if selectedTaskIds.contains task.id then
            { task with groupId := some newGroupId }
          else task),
       taskGroups := st.taskGroups ++ [newGroup] }, none)

/-! ## Task creation (`handleSaveTask`, create branch) -/

/-- Fresh id assignment:
`tasks.length > 0 ? Math.max(...tasks.map(t => t.id)) + 1 : 1`. -/
def nextTaskId (tasks : List Task) : Int :=
  match (tasks.map Task.id).max? with
  | some m => m + 1
  | none => 1

/-- The create branch of `handleSaveTask`: append a new task carrying the
fresh id and the form's payload. -/
def handleSaveTaskCreate (st : ProjState) (name : String) (s e : Int)
    (executingUnit : Option String) (predecessorId : Option Int)
    (notes : Option String) : ProjState :=
  { st with tasks := st.tasks ++
      [{ id := nextTaskId st.tasks, name := name, start := s, «end» := e,
         progress := 0, predecessorId := predecessorId, groupId := none,
         executingUnit := executingUnit, notes := notes }] }

/-! ## Deletion cascade (`handleDeleteTasks`)

Following the variant that carries the full cascade (the unnamed App source,
whose delete handler also strips predecessor references; the older `App.tsx`
variant lacks that step). -/

/-- `if (t.predecessorId && idsToDeleteSet.has(t.predecessorId))`: clear a
truthy predecessor reference that points at a deleted id (a reference of `0`
is falsy in JavaScript and is left untouched). -/
def stripDeletedPredecessor (ids : List Int) (t : Task) : Task :=
  match t.predecessorId with
  | some k => if k != 0 && ids.contains k then { t with predecessorId := none } else t
  | none => t

/-- `if (task.groupId && dissolvedGroupIds.has(task.groupId))`: clear a truthy
`groupId` that points at a dissolved group (an empty-string id is falsy). -/
def clearDissolvedGroupId (dissolved : List String) (t : Task) : Task :=
  match t.groupId with
  | some gid => if gid != "" && dissolved.contains gid then { t with groupId := none } else t
  | none => t

/-- Every group with the deleted ids removed from its membership
(`group.taskIds.filter(id => !idsToDeleteSet.has(id))`). -/
def deleteStrippedGroups (st : ProjState) (ids : List Int) : List TaskGroup :=
  st.taskGroups.map (fun g =>
    { g with taskIds := g.taskIds.filter (fun i => !ids.contains i) })

/-- Ids of the groups the deletion leaves with fewer than 2 members (the
source's `dissolvedGroupIds` accumulator). -/
def deleteDissolvedIds (st : ProjState) (ids : List Int) : List String :=
  ((deleteStrippedGroups st ids).filter (fun g => g.taskIds.length < 2)).map TaskGroup.id

/-- `handleDeleteTasks(taskIdsToDelete)`: drop the deleted tasks, strip
dangling predecessor references, remove deleted ids from every group's
membership, dissolve groups left with fewer than 2 members, and clear the
`groupId` of survivors that belonged to a dissolved group. -/
def handleDeleteTasks (st : ProjState) (taskIdsToDelete : List Int) : ProjState :=
  let remainingTasks :=
    (st.tasks.filter (fun t => !taskIdsToDelete.contains t.id)).map
      (stripDeletedPredecessor taskIdsToDelete)
  let finalGroups :=
    (deleteStrippedGroups st taskIdsToDelete).filter (fun g => !(g.taskIds.length < 2))
  { tasks := remainingTasks.map
      (clearDissolvedGroupId (deleteDissolvedIds st taskIdsToDelete)),
    taskGroups := finalGroups }

/-! ## Interval edit (`handleUpdateTaskInterval`) -/

/-- `a` may precede `b` when sorting group members ascending by start
(`.sort((a, b) => a.start.getTime() - b.start.getTime())`, stable). -/
def startLe (a b : Task) : Prop := a.start ≤ b.start

instance : DecidableRel startLe := fun a b => Int.decLe _ _

/-- The group's members resolved against the collection
(`group.taskIds.map(id => tasks.find(t => t.id === id)!).filter(Boolean)`)
and stably sorted ascending by start date. -/
def sortedGroupTasks (st : ProjState) (group : TaskGroup) : List Task :=
  List.insertionSort startLe
    (group.taskIds.filterMap (fun i => st.tasks.find? (fun t => t.id == i)))

/-- `handleUpdateTaskInterval(groupId, previousTaskId, taskToShiftId,
newInterval)`: reposition `taskToShift` to `previousTask.end + newInterval`
and shift the suffix of the sorted membership starting at `taskToShift` by the
same delta, preserving each shifted task's calendar-day span.  (When
`findIndex` misses, JavaScript's `slice(-1)` keeps only the last member; the
`none` branch reproduces that.) -/
def handleUpdateTaskInterval (st : ProjState) (groupId : String)
    (previousTaskId taskToShiftId : Int) (newInterval : Int) : ProjState :=
  match st.tasks.find? (fun t => t.id == previousTaskId) with
  | none => st
  | some previousTask =>
    match st.tasks.find? (fun t => t.id == taskToShiftId) with
    | none => st
    | some taskToShift =>
      let newStartDate := addDays previousTask.«end» newInterval
      let delta := differenceInDays newStartDate taskToShift.start
      if delta = 0 then st
      else
        match st.taskGroups.find? (fun g => g.id == groupId) with
        | none => st
        | some group =>
          let groupTasks := sortedGroupTasks st group
          let tail :=
            match groupTasks.findIdx? (fun t => t.id == taskToShiftId) with
            | some i => groupTasks.drop i
            | none => groupTasks.drop (groupTasks.length - 1)
          let idsToShift := tail.map Task.id
          { st with tasks := st.tasks.map (fun task =>
              if idsToShift.contains task.id then
                let duration := differenceInDays task.«end» task.start
                let newStart := addDays task.start delta
                { task with start := newStart, «end» := addDays newStart duration }
              else task) }

/-! ## Claim C1: group co-move -/

/-- Example collection for the move claims: task 1 runs Friday (epoch day 1)
to Monday (day 4) inside group `g`; task 2 runs Friday (day 8) to Saturday
(day 9) in the same group; task 3 is outside the group. -/
def moveExA : Task := { id := 1, name := "A", start := 1, «end» := 4, groupId := some "g" }

def moveExB : Task := { id := 2, name := "B", start := 8, «end» := 9, groupId := some "g" }

def moveExC : Task := { id := 3, name := "C", start := 20, «end» := 21 }

def moveExSt : ProjState :=
  { tasks := [moveExA, moveExB, moveExC],
    taskGroups := [{ id := "g", taskIds := [1, 2], color := "#f87171" }] }

/-- C1, counterexample to the claim as stated: moving grouped task 1 from
day 1 (a Friday) to day 2 gives delta `d = 1`, but task 1's end moves from
day 4 to day 3 — it is *not* shifted by `d`, because the source recomputes
each member's end as new start plus its business-day span taken as calendar
days (the Fri→Mon span holds one business day). -/
theorem handleDragTask_group_end_not_shifted :
    differenceInDays 2 moveExA.start = 1 ∧
    moveExA.groupId = some "g" ∧
    (handleDragTask moveExSt 1 2).tasks.map Task.«end» = [3, 10, 21] ∧
    moveExA.«end» + 1 = 5 := by decide

/-- C1, amended: for a move of a grouped task with nonzero day delta `d`,
every member of the group has its start shifted by exactly `d` and its end set
to the shifted start plus its own business-day span (taken as calendar days),
while every task outside the group is unchanged. -/
theorem handleDragTask_grouped (st : ProjState) (taskId newStartDate : Int)
    (tm : Task) (grp : TaskGroup)
    (hfind : st.tasks.find? (fun t => t.id == taskId) = some tm)
    (hdelta : differenceInDays newStartDate tm.start ≠ 0)
    (hgrp : truthyStr tm.groupId = true)
    (hg : st.taskGroups.find? (fun g => some g.id == tm.groupId) = some grp) :
    (handleDragTask st taskId newStartDate).tasks = st.tasks.map (fun t =>
      if grp.taskIds.contains t.id then
        { t with start := t.start + (newStartDate - tm.start),
                 «end» := t.start + (newStartDate - tm.start)
                          + differenceInBusinessDays t.«end» t.start }
      else t) := by
  unfold handleDragTask
  rw [hfind]
  simp only [differenceInDays] at hdelta ⊢
  rw [if_neg hdelta, if_pos hgrp, hg]
  simp [addDays, differenceInDays]

/-- Witness for C1's amended theorem at the example collection. -/
theorem handleDragTask_grouped_witness :
    (handleDragTask moveExSt 1 2).tasks = moveExSt.tasks.map (fun t =>
      if [1, 2].contains t.id then
        { t with start := t.start + (2 - moveExA.start),
                 «end» := t.start + (2 - moveExA.start)
                          + differenceInBusinessDays t.«end» t.start }
      else t) :=
  handleDragTask_grouped moveExSt 1 2 moveExA
    { id := "g", taskIds := [1, 2], color := "#f87171" } rfl (by decide) rfl rfl

/-! ## Claim C2: ungrouped move and calendar-day duration -/

/-- Ungrouped task running Friday (day 1) to Monday (day 4). -/
def moveExU : Task := { id := 1, name := "U", start := 1, «end» := 4 }

def moveExUSt : ProjState := { tasks := [moveExU], taskGroups := [] }

/-- C2, counterexample to the claim as stated: moving the ungrouped Fri→Mon
task to day 2 yields the pair (2, 3), whose calendar-day duration is 1, while
the task's calendar-day duration before the move was 3. -/
theorem handleDragTask_ungrouped_duration_not_preserved :
    (handleDragTask moveExUSt 1 2).tasks = [{ moveExU with start := 2, «end» := 3 }] ∧
    differenceInDays 3 2 ≠ differenceInDays moveExU.«end» moveExU.start := by decide

/-- Auxiliary: when a per-id update preserves ids, looking up the id in the
updated collection yields the updated first match. -/
theorem find?_map_ite (l : List Task) (tid : Int) (f : Task → Task)
    (hid : ∀ t, (f t).id = t.id) (tm : Task)
    (h : l.find? (fun t => t.id == tid) = some tm) :
    (l.map (fun t => if t.id == tid then f t else t)).find? (fun t => t.id == tid)
      = some (f tm) := by
  induction l with
  | nil => simp at h
  | cons a l ih =>
    by_cases ha : (a.id == tid) = true
    · simp only [List.find?, ha] at h
      injection h with h'
      subst h'
      simp only [List.map_cons, if_pos ha, List.find?, if_true, hid, ha]
    · simp only [List.find?, ha] at h
      simp only [List.map_cons]
      rw [if_neg ha]
      simp only [List.find?, ha]
      exact ih h

/-- C2, amended: after an ungrouped move with nonzero delta, the moved task's
new pair is `(newStart, newStart + businessDaySpan)`, so its calendar-day
duration after the move equals the *business-day* span it had before the move
(not, in general, its former calendar-day duration). -/
theorem handleDragTask_ungrouped (st : ProjState) (taskId newStartDate : Int)
    (tm : Task)
    (hfind : st.tasks.find? (fun t => t.id == taskId) = some tm)
    (hgrp : truthyStr tm.groupId = false)
    (hdelta : differenceInDays newStartDate tm.start ≠ 0) :
    (handleDragTask st taskId newStartDate).tasks.find? (fun t => t.id == taskId)
      = some { tm with start := newStartDate,
                       «end» := newStartDate + differenceInBusinessDays tm.«end» tm.start }
    ∧ differenceInDays
        (newStartDate + differenceInBusinessDays tm.«end» tm.start) newStartDate
      = differenceInBusinessDays tm.«end» tm.start := by
  constructor
  · unfold handleDragTask
    rw [hfind]
    simp only [differenceInDays] at hdelta ⊢
    rw [if_neg hdelta, if_neg (by simp [hgrp])]
    simpa [addDays] using
      find?_map_ite st.tasks taskId
        (fun t => { t with start := newStartDate,
                           «end» := newStartDate + differenceInBusinessDays tm.«end» tm.start })
        (fun t => rfl) tm hfind
  · simp [differenceInDays]

/-- Witness for C2's amended theorem: the ungrouped Fri→Mon task moved to
day 2. -/
theorem handleDragTask_ungrouped_witness :
    (handleDragTask moveExUSt 1 2).tasks.find? (fun t => t.id == 1)
      = some { moveExU with start := 2,
                            «end» := 2 + differenceInBusinessDays moveExU.«end» moveExU.start }
    ∧ differenceInDays
        (2 + differenceInBusinessDays moveExU.«end» moveExU.start) 2
      = differenceInBusinessDays moveExU.«end» moveExU.start :=
  handleDragTask_ungrouped moveExUSt 1 2 moveExU rfl rfl (by decide)

/-! ## Claim C3: conflict-detector exactness -/

/-- From the spec's words (refinement comparison): the task's `predecessorId`
resolves to some task `p` in the collection and `t.start < p.end`. -/
def specHasConflict (tasks : List Task) (t : Task) : Bool :=
  tasks.any (fun p => t.predecessorId == some p.id && decide (t.start < p.«end»))

/-- The amended predicate: the reference must additionally be truthy
(present and non-zero), matching the source's `if (task.predecessorId)`. -/
def specHasConflictNZ (tasks : List Task) (t : Task) : Bool :=
  truthyNum t.predecessorId && specHasConflict tasks t

/-- Predecessor with id 0 for the C3 counterexample. -/
def warnExP : Task := { id := 0, name := "P", start := 0, «end» := 5 }

/-- Successor starting before `warnExP` ends, referencing id 0. -/
def warnExS : Task := { id := 1, name := "S", start := 0, «end» := 3, predecessorId := some 0 }

/-- C3, counterexample to the claim as stated: `warnExS.predecessorId`
resolves to `warnExP` and `warnExS.start < warnExP.end`, yet no warning is
produced, because `0` is falsy in JavaScript and `if (task.predecessorId)`
skips the task. -/
theorem checkForWarnings_misses_zero_id :
    checkForWarnings [warnExP, warnExS] = [] ∧
    warnExS.predecessorId = some warnExP.id ∧
    warnExP ∈ [warnExP, warnExS] ∧
    warnExS.start < warnExP.«end» := by decide

/-- Auxiliary: `filterMap` against a body that emits the task's id exactly on
a predicate gives the filtered id list. -/
theorem filterMap_warn_eq (body : Task → Option Warning) (q : Task → Bool)
    (hpt : ∀ t, (body t).map Warning.taskId = if q t then some t.id else none) :
    ∀ l : List Task, (l.filterMap body).map Warning.taskId = (l.filter q).map Task.id := by
  intro l
  induction l with
  | nil => rfl
  | cons t l ih =>
    have h := hpt t
    cases hb : body t with
    | none =>
      rw [hb] at h
      simp only [Option.map_none'] at h
      have hq : q t = false := by
        cases hqt : q t
        · rfl
        · rw [hqt] at h; simp at h
      simp only [List.filterMap_cons, hb, List.filter_cons, hq]
      exact ih
    | some w =>
      rw [hb] at h
      simp only [Option.map_some'] at h
      have hq : q t = true := by
        cases hqt : q t
        · rw [hqt] at h; simp at h
        · rfl
      rw [hq] at h
      simp only [if_true, Option.some_inj] at h
      simp only [List.filterMap_cons, hb, List.filter_cons, hq, if_true, List.map_cons]
      rw [h, ih]

/-- C3, amended: over a collection with distinct ids, the warning list holds
exactly one entry (carrying the task's id, in collection order) for each task
whose `predecessorId` is present *and non-zero* and resolves to a task `p`
with `t.start < p.end`; tasks with an absent, zero, or unresolvable reference,
or with `start ≥ p.end`, produce none. -/
theorem checkForWarnings_exact (tasks : List Task)
    (hnodup : (tasks.map Task.id).Nodup) :
    (checkForWarnings tasks).map Warning.taskId
      = (tasks.filter (specHasConflictNZ tasks)).map Task.id := by
  apply filterMap_warn_eq
  intro t
  cases htr : truthyNum t.predecessorId with
  | false => simp [specHasConflictNZ, htr]
  | true =>
    simp only [htr, if_true]
    cases hf : tasks.find? (fun p => some p.id == t.predecessorId) with
    | none =>
      have hall := List.find?_eq_none.mp hf
      have hany : specHasConflict tasks t = false := by
        simp only [specHasConflict, List.any_eq_false, Bool.and_eq_true, beq_iff_eq,
          decide_eq_true_eq, not_and]
        intro p hp h1
        have h2 := hall p hp
        simp only [beq_iff_eq] at h2
        exact fun _ => h2 h1.symm
      simp [specHasConflictNZ, htr, hany]
    | some p =>
      have hpid : t.predecessorId = some p.id := by
        have := List.find?_some hf
        simp only [beq_iff_eq] at this
        exact this.symm
      have hpmem : p ∈ tasks := List.mem_of_find?_eq_some hf
      by_cases hlt : t.start < p.«end»
      · have hany : specHasConflict tasks t = true := by
          simp only [specHasConflict, List.any_eq_true]
          exact ⟨p, hpmem, by simp [hpid, hlt]⟩
        simp [specHasConflictNZ, htr, hany, hlt]
      · have hany : specHasConflict tasks t = false := by
          simp only [specHasConflict, List.any_eq_false, Bool.and_eq_true, beq_iff_eq,
            decide_eq_true_eq, not_and]
          intro p' hp' h1 h2
          have he : p'.id = p.id := by
            rw [h1] at hpid
            injection hpid
          have hpp : p' = p := List.inj_on_of_nodup_map hnodup hp' hpmem he
          rw [hpp] at h2
          exact hlt h2
        simp [specHasConflictNZ, htr, hany, hlt]

/-- Witness for C3's amended theorem: a two-task chain where the successor
starts before its predecessor ends. -/
theorem checkForWarnings_exact_witness :
    (checkForWarnings
        [{ id := 1, name := "P", start := 0, «end» := 5 },
         { id := 2, name := "S", start := 3, «end» := 7, predecessorId := some 1 }]).map
        Warning.taskId
      = ([{ id := 1, name := "P", start := 0, «end» := 5 },
          { id := 2, name := "S", start := 3, «end» := 7, predecessorId := some 1 }].filter
          (specHasConflictNZ
            [{ id := 1, name := "P", start := 0, «end» := 5 },
             { id := 2, name := "S", start := 3, «end» := 7, predecessorId := some 1 }])).map
          Task.id :=
  checkForWarnings_exact _ (by decide)

/-! ## Claim C4: resize clamps and touches only the resized task -/

/-- C4: a resize produces the spec's clamped pair — `min(newBoundaryDate,
end)` with `end` kept when dragging the start, `max(newBoundaryDate, start)`
with `start` kept when dragging the end — the result never inverts
(`start ≤ end`), only tasks carrying the resized id have their boundaries
replaced (group siblings included are untouched), and the group collection is
unchanged. -/
theorem resizeItem_clamps (st : ProjState) (taskId : Int) (side : Side)
    (currentDate : Int) (task : Task)
    (hfind : st.tasks.find? (fun t => t.id == taskId) = some task) :
    computeResizePreview task side currentDate
      = (match side with
         | .start => (min currentDate task.«end», task.«end»)
         | .«end» => (task.start, max currentDate task.start))
    ∧ (computeResizePreview task side currentDate).1
        ≤ (computeResizePreview task side currentDate).2
    ∧ (resizeItem st taskId side currentDate).tasks
        = st.tasks.map (fun t =>
            if t.id == taskId then
              { t with start := (computeResizePreview task side currentDate).1,
                       «end» := (computeResizePreview task side currentDate).2 }
            else t)
    ∧ (resizeItem st taskId side currentDate).taskGroups = st.taskGroups := by
  refine ⟨?_, ?_, ?_, ?_⟩
  · cases side <;>
      simp only [computeResizePreview, Int.min_def, Int.max_def, Prod.mk.injEq,
        and_true, true_and] <;>
      split_ifs <;> omega
  · cases side <;> simp only [computeResizePreview] <;> split_ifs <;> omega
  · unfold resizeItem
    rw [hfind]
    rfl
  · unfold resizeItem
    rw [hfind]
    rfl

/-- Example task for the C4 witness, running day 5 to day 10. -/
def resizeExT : Task := { id := 1, name := "R", start := 5, «end» := 10 }

/-- Witness for C4 at the spec's own scenario: resizing the end of (5, 10) to
day −1 clamps the end at 5. -/
theorem resizeItem_clamps_witness :
    computeResizePreview resizeExT Side.«end» (-1)
      = (resizeExT.start, max (-1) resizeExT.start)
    ∧ (computeResizePreview resizeExT Side.«end» (-1)).1
        ≤ (computeResizePreview resizeExT Side.«end» (-1)).2
    ∧ (resizeItem { tasks := [resizeExT], taskGroups := [] } 1 Side.«end» (-1)).tasks
        = [resizeExT].map (fun t =>
            if t.id == 1 then
              { t with start := (computeResizePreview resizeExT Side.«end» (-1)).1,
                       «end» := (computeResizePreview resizeExT Side.«end» (-1)).2 }
            else t)
    ∧ (resizeItem { tasks := [resizeExT], taskGroups := [] } 1 Side.«end» (-1)).taskGroups
        = [] :=
  resizeItem_clamps { tasks := [resizeExT], taskGroups := [] } 1 Side.«end» (-1)
    resizeExT rfl

/-! ## Claim C9: createGroup validation -/

/-- Example task for the C9 counterexample. -/
def cgExT : Task := { id := 1, name := "T", start := 0, «end» := 1 }

/-- C9, counterexample to the claim as stated: creating a group from a single
candidate is rejected with the collections unchanged, but *silently* — the
handler returns before any notification, so no message is surfaced, while the
claim requires one. -/
theorem handleCreateGroup_silent_below_two :
    handleCreateGroup { tasks := [cgExT], taskGroups := [] } [1] "gid"
      = ({ tasks := [cgExT], taskGroups := [] }, none) := by decide

/-- C9, amended: fewer than two candidates are rejected with both collections
unchanged but with *no* surfaced message; a candidate that already belongs to
a group (truthy `groupId`) is rejected with the duplicate-membership message
and both collections unchanged; otherwise a new group whose `taskIds` are
exactly the given ids is appended and each selected task's `groupId` is set to
the new group id, with no message. -/
theorem handleCreateGroup_branches (st : ProjState) (ids : List Int) (gid : String) :
    (ids.length < 2 → handleCreateGroup st ids gid = (st, none))
    ∧ (¬ ids.length < 2 → anyCandidateGrouped st ids = true →
        handleCreateGroup st ids gid = (st, some createGroupErrorMessage))
    ∧ (¬ ids.length < 2 → anyCandidateGrouped st ids = false →
        handleCreateGroup st ids gid
          = ({ tasks := st.tasks.map (fun t =>
                 if ids.contains t.id then { t with groupId := some gid } else t),
               taskGroups := st.taskGroups ++
                 [{ id := gid, taskIds := ids,
                    color := groupColors.getD (st.taskGroups.length % groupColors.length) "" }] },
             none)) := by
  refine ⟨fun h1 => ?_, fun h1 h2 => ?_, fun h1 h2 => ?_⟩
  · unfold handleCreateGroup
    rw [if_pos h1]
  · unfold handleCreateGroup
    rw [if_neg h1, if_pos h2]
  · unfold handleCreateGroup
    rw [if_neg h1, if_neg (by simp [h2])]

/-- Witness for C9's amended theorem: the single-candidate silent rejection at
a concrete state. -/
theorem handleCreateGroup_branches_witness :
    handleCreateGroup { tasks := [cgExT], taskGroups := [] } [1] "g2" =
      ({ tasks := [cgExT], taskGroups := [] }, none) :=
  (handleCreateGroup_branches { tasks := [cgExT], taskGroups := [] } [1] "g2").1
    (by decide)

/-! ## Claim C10: id assignment -/

/-- Auxiliary: a `foldl max` bounds its seed and every element. -/
theorem le_foldl_max (l : List Int) (a : Int) :
    a ≤ l.foldl max a ∧ ∀ x ∈ l, x ≤ l.foldl max a := by
  induction l generalizing a with
  | nil => exact ⟨le_refl a, by simp⟩
  | cons b l ih =>
    refine ⟨le_trans (le_max_left a b) (ih (max a b)).1, ?_⟩
    intro x hx
    rcases List.mem_cons.mp hx with rfl | hx
    · exact le_trans (le_max_right a x) (ih (max a x)).1
    · exact (ih (max a b)).2 x hx

/-- C10, amended: the id handed to a newly created task is `max + 1` over the
*current* collection, so it is strictly greater than — in particular distinct
from — the id of every task currently present; it is not fresh with respect to
previously deleted tasks. -/
theorem handleSaveTaskCreate_fresh (st : ProjState) (nm : String) (s e : Int)
    (u : Option String) (p : Option Int) (no : Option String) :
    (handleSaveTaskCreate st nm s e u p no).tasks.map Task.id
      = st.tasks.map Task.id ++ [nextTaskId st.tasks]
    ∧ ∀ t ∈ st.tasks, t.id < nextTaskId st.tasks := by
  constructor
  · simp [handleSaveTaskCreate]
  · intro t ht
    cases hl : st.tasks with
    | nil => rw [hl] at ht; simp at ht
    | cons a l =>
      rw [hl] at ht
      have hmax : nextTaskId (a :: l) = ((l.map Task.id).foldl max a.id) + 1 := by
        simp [nextTaskId, List.max?]
      rw [hmax]
      rcases List.mem_cons.mp ht with rfl | hmem
      · have h := (le_foldl_max (l.map Task.id) t.id).1
        omega
      · have h := (le_foldl_max (l.map Task.id) a.id).2 t.id (List.mem_map_of_mem _ hmem)
        omega

/-- Witness for C10's amended theorem at a one-task collection. -/
theorem handleSaveTaskCreate_fresh_witness :
    (handleSaveTaskCreate { tasks := [cgExT], taskGroups := [] }
        "w" 0 0 none none none).tasks.map Task.id
      = [cgExT].map Task.id ++ [nextTaskId [cgExT]]
    ∧ cgExT.id < nextTaskId [cgExT] :=
  ⟨(handleSaveTaskCreate_fresh { tasks := [cgExT], taskGroups := [] }
      "w" 0 0 none none none).1,
   (handleSaveTaskCreate_fresh { tasks := [cgExT], taskGroups := [] }
      "w" 0 0 none none none).2 cgExT (by decide)⟩

/-- Intermediate states for the C10 counterexample: create twice, delete the
second task, create again. -/
def idExSt1 : ProjState :=
  handleSaveTaskCreate { tasks := [], taskGroups := [] } "a" 0 0 none none none

def idExSt2 : ProjState := handleSaveTaskCreate idExSt1 "b" 0 0 none none none

def idExSt3 : ProjState := handleDeleteTasks idExSt2 [2]

/-- C10, counterexample to the claim as stated: task id 2 exists after the
second create, is deleted, and the next create assigns id 2 again — the id of
a task that previously existed in the command sequence is reused. -/
theorem handleSaveTaskCreate_reuses_deleted_id :
    (2 : Int) ∈ idExSt2.tasks.map Task.id
    ∧ idExSt3.tasks.map Task.id = [1]
    ∧ (handleSaveTaskCreate idExSt3 "c" 0 0 none none none).tasks.map Task.id
        = [1, 2] := by decide

/-! ## Claim C6: pre-packing sort order -/

/-- The comparator relation in arithmetic form: `a` may precede `b` exactly
when `a` starts strictly earlier, or they start together and `a` ends no
earlier (equivalently, with equal starts, `a`'s duration is no shorter). -/
theorem taskSortLe_iff (a b : Task) :
    taskSortLe a b ↔ (a.start < b.start ∨ (a.start = b.start ∧ b.«end» ≤ a.«end»)) := by
  unfold taskSortLe taskCmp
  by_cases h : a.start - b.start ≠ 0
  · rw [if_pos h]; omega
  · rw [if_neg h]; omega

instance : IsTotal Task taskSortLe :=
  ⟨fun a b => by rw [taskSortLe_iff, taskSortLe_iff]; omega⟩

instance : IsTrans Task taskSortLe :=
  ⟨fun a b c h1 h2 => by
    rw [taskSortLe_iff] at h1 h2 ⊢
    omega⟩

/-- Tasks for the C6 counterexample: both start before the week window at
day 10, so both have clipped start 0; `sortExB` is longer. -/
def sortExA : Task := { id := 1, name := "A", start := 4, «end» := 11 }

def sortExB : Task := { id := 2, name := "B", start := 5, «end» := 16 }

/-- C6, counterexample to the claim as stated: in the week starting day 10,
both tasks have the same effective (clipped) start, and `sortExB` has the
longer duration, yet the shorter `sortExA` is processed first — the
comparator uses the *true* start (`a.start - b.start`), not the clipped
one. -/
theorem tasksInWeek_not_sorted_by_clipped_start :
    tasksInWeek [sortExA, sortExB] 10 = [sortExA, sortExB]
    ∧ startDayOf 10 sortExA = startDayOf 10 sortExB
    ∧ differenceInDays sortExA.«end» sortExA.start
        < differenceInDays sortExB.«end» sortExB.start := by decide

/-- C6, amended: the processing order is a permutation of the tasks
overlapping the window, sorted by *true* (unclipped) start ascending, with
ties on equal true start broken by end — equivalently duration — descending
(the longer task first). -/
theorem tasksInWeek_sorted (tasks : List Task) (ws : Int) :
    (tasksInWeek tasks ws).Perm (tasks.filter (windowFilter ws))
    ∧ List.Pairwise
        (fun a b => a.start < b.start ∨ (a.start = b.start ∧ b.«end» ≤ a.«end»))
        (tasksInWeek tasks ws) := by
  constructor
  · exact List.perm_insertionSort _ _
  · have hs := List.sorted_insertionSort taskSortLe (tasks.filter (windowFilter ws))
    exact List.Pairwise.imp (fun h => (taskSortLe_iff _ _).mp h) hs

/-! ## Claim C7: deletion cascade -/

theorem stripDeletedPredecessor_id (ids : List Int) (t : Task) :
    (stripDeletedPredecessor ids t).id = t.id := by
  unfold stripDeletedPredecessor
  cases t.predecessorId <;> simp only [] <;> split <;> rfl

theorem stripDeletedPredecessor_groupId (ids : List Int) (t : Task) :
    (stripDeletedPredecessor ids t).groupId = t.groupId := by
  unfold stripDeletedPredecessor
  cases t.predecessorId <;> simp only [] <;> split <;> rfl

theorem clearDissolvedGroupId_id (ds : List String) (t : Task) :
    (clearDissolvedGroupId ds t).id = t.id := by
  unfold clearDissolvedGroupId
  cases t.groupId <;> simp only [] <;> split <;> rfl

theorem clearDissolvedGroupId_predecessorId (ds : List String) (t : Task) :
    (clearDissolvedGroupId ds t).predecessorId = t.predecessorId := by
  unfold clearDissolvedGroupId
  cases t.groupId <;> simp only [] <;> split <;> rfl

/-- A surviving non-zero predecessor reference cannot point at a deleted
id. -/
theorem stripDeletedPredecessor_safe (ids : List Int) (t : Task) (k : Int)
    (h : (stripDeletedPredecessor ids t).predecessorId = some k) (hk : k ≠ 0) :
    ¬ k ∈ ids := by
  cases hp : t.predecessorId with
  | none =>
    simp only [stripDeletedPredecessor, hp] at h
    simp at h
  | some k0 =>
    simp only [stripDeletedPredecessor, hp] at h
    by_cases hc : (k0 != 0 && ids.contains k0) = true
    · rw [if_pos hc] at h
      simp at h
    · rw [if_neg hc] at h
      rw [hp] at h
      injection h with h'
      subst h'
      intro hmem
      simp only [Bool.and_eq_true, bne_iff_ne, ne_eq, not_and] at hc
      exact hc hk ((List.elem_iff).mpr hmem)

/-- A surviving non-empty `groupId` cannot point at a dissolved group. -/
theorem clearDissolvedGroupId_safe (ds : List String) (t : Task) (gid : String)
    (h : (clearDissolvedGroupId ds t).groupId = some gid) (hg : gid ≠ "") :
    ¬ gid ∈ ds := by
  cases hp : t.groupId with
  | none =>
    simp only [clearDissolvedGroupId, hp] at h
    simp at h
  | some g0 =>
    simp only [clearDissolvedGroupId, hp] at h
    by_cases hc : (g0 != "" && ds.contains g0) = true
    · rw [if_pos hc] at h
      simp at h
    · rw [if_neg hc] at h
      rw [hp] at h
      injection h with h'
      subst h'
      intro hmem
      simp only [Bool.and_eq_true, bne_iff_ne, ne_eq, not_and] at hc
      exact hc hg ((List.elem_iff).mpr hmem)

/-- C7, amended: deletion keeps exactly the non-deleted tasks (in order);
every surviving *non-zero* predecessor reference to a deleted task is cleared;
every remaining group has at least 2 members, none of them deleted; every
group that keeps at least 2 members survives with exactly the deleted ids
removed; and no surviving task's *non-empty* `groupId` points at a dissolved
group.  (A predecessor reference of literally `0` and a group id of `""` are
falsy in JavaScript and escape the cascade, hence the two caveats.) -/
theorem handleDeleteTasks_cascade (st : ProjState) (ids : List Int) :
    ((handleDeleteTasks st ids).tasks.map Task.id
        = (st.tasks.filter (fun t => !ids.contains t.id)).map Task.id)
    ∧ (∀ t ∈ (handleDeleteTasks st ids).tasks, ∀ k, t.predecessorId = some k →
         k ≠ 0 → ¬ k ∈ ids)
    ∧ (∀ g ∈ (handleDeleteTasks st ids).taskGroups,
         2 ≤ g.taskIds.length ∧ ∀ i ∈ g.taskIds, ¬ i ∈ ids)
    ∧ (∀ g ∈ st.taskGroups,
         2 ≤ (g.taskIds.filter (fun i => !ids.contains i)).length →
           { g with taskIds := g.taskIds.filter (fun i => !ids.contains i) }
             ∈ (handleDeleteTasks st ids).taskGroups)
    ∧ (∀ t ∈ (handleDeleteTasks st ids).tasks, ∀ gid, t.groupId = some gid →
         gid ≠ "" → ¬ gid ∈ deleteDissolvedIds st ids) := by
  refine ⟨?_, ?_, ?_, ?_, ?_⟩
  · simp only [handleDeleteTasks, List.map_map]
    apply List.map_congr_left
    intro t _
    simp [Function.comp, clearDissolvedGroupId_id, stripDeletedPredecessor_id]
  · intro t ht k hk hk0
    simp only [handleDeleteTasks, List.mem_map] at ht
    rcases ht with ⟨t0, ⟨t1, _, rfl⟩, rfl⟩
    rw [clearDissolvedGroupId_predecessorId] at hk
    exact stripDeletedPredecessor_safe ids t1 k hk hk0
  · intro g hg
    simp only [handleDeleteTasks, List.mem_filter, deleteStrippedGroups,
      List.mem_map] at hg
    rcases hg with ⟨⟨g0, _, rfl⟩, hlen⟩
    constructor
    · simpa using hlen
    · intro i hi
      simp only [List.mem_filter, Bool.not_eq_true'] at hi
      intro hmem
      have h3 := (List.elem_iff).mpr hmem
      have h4 : ids.contains i = true := h3
      rw [hi.2] at h4
      exact Bool.noConfusion h4
  · intro g hg hlen
    simp only [handleDeleteTasks, List.mem_filter, deleteStrippedGroups,
      List.mem_map]
    refine ⟨⟨g, hg, rfl⟩, ?_⟩
    simp only [Bool.not_eq_true', decide_eq_false_iff_not]
    omega
  · intro t ht gid hgid hne
    simp only [handleDeleteTasks, List.mem_map] at ht
    rcases ht with ⟨t0, ⟨t1, _, rfl⟩, rfl⟩
    exact clearDissolvedGroupId_safe _ _ gid hgid hne

/-- Tasks and groups for the C7 witness: deleting task 1 clears task 2's
reference to it and dissolves the two-member group. -/
def delWitSt : ProjState :=
  { tasks := [{ id := 1, name := "A", start := 0, «end» := 1 },
              { id := 2, name := "B", start := 2, «end» := 3,
                predecessorId := some 1, groupId := some "g" }],
    taskGroups := [{ id := "g", taskIds := [1, 2], color := "c" }] }

/-- Witness for C7's amended theorem: the surviving-id equation at a concrete
deletion. -/
theorem handleDeleteTasks_cascade_witness :
    (handleDeleteTasks delWitSt [1]).tasks.map Task.id
      = (delWitSt.tasks.filter (fun t => !(List.contains [1] t.id))).map Task.id :=
  (handleDeleteTasks_cascade delWitSt [1]).1

/-- Tasks for the C7 counterexample: task id 0 and a survivor referencing
it. -/
def delExZ : Task := { id := 0, name := "Z", start := 0, «end» := 1 }

def delExS : Task := { id := 5, name := "S", start := 2, «end» := 3, predecessorId := some 0 }

/-- C7, counterexample to the claim as stated: after deleting task 0, the
survivor still carries `predecessorId = some 0` — the reference to the
deleted task is *not* cleared, because `0` is falsy in JavaScript and
`if (t.predecessorId && ...)` skips it. -/
theorem handleDeleteTasks_keeps_zero_reference :
    (handleDeleteTasks { tasks := [delExZ, delExS], taskGroups := [] } [0]).tasks
      = [delExS]
    ∧ delExS.predecessorId = some (0 : Int)
    ∧ delExZ.id = 0 := by decide

/-! ## Claim C8: interval edit cascade -/

instance : IsTotal Task startLe :=
  ⟨fun a b => by unfold startLe; omega⟩

instance : IsTrans Task startLe :=
  ⟨fun a b c h1 h2 => by
    unfold startLe at h1 h2 ⊢
    omega⟩

/-- The sorted group membership is pairwise ascending by start. -/
theorem sortedGroupTasks_sorted (st : ProjState) (grp : TaskGroup) :
    List.Pairwise startLe (sortedGroupTasks st grp) :=
  List.sorted_insertionSort startLe _

/-- Every entry of the sorted membership is the collection's first match for
its own id. -/
theorem mem_sortedGroupTasks_find? (st : ProjState) (grp : TaskGroup) :
    ∀ x ∈ sortedGroupTasks st grp,
      st.tasks.find? (fun t => t.id == x.id) = some x := by
  intro x hx
  have hx' : x ∈ grp.taskIds.filterMap (fun i => st.tasks.find? (fun t => t.id == i)) :=
    (List.perm_insertionSort startLe _).mem_iff.mp hx
  rcases List.mem_filterMap.mp hx' with ⟨j, _, hfind⟩
  have hid := List.find?_some hfind
  rw [beq_iff_eq] at hid
  rw [hid]
  exact hfind

/-- `findIdx?` success gives an in-bounds index whose element satisfies the
predicate. -/
theorem findIdx?_spec {α : Type} {p : α → Bool} :
    ∀ (l : List α) (i : Nat), l.findIdx? p = some i →
      ∃ h : i < l.length, p (l.get ⟨i, h⟩) = true := by
  intro l
  induction l with
  | nil => intro i h; simp [List.findIdx?] at h
  | cons a l ih =>
    intro i h
    rw [List.findIdx?_cons] at h
    by_cases hp : p a = true
    · rw [if_pos hp] at h
      injection h with h'
      subst h'
      exact ⟨Nat.succ_pos _, hp⟩
    · rw [if_neg hp, List.findIdx?_succ] at h
      rcases Option.map_eq_some'.mp h with ⟨j, hj, rfl⟩
      rcases ih j hj with ⟨hlt, hpj⟩
      exact ⟨Nat.succ_lt_succ hlt, hpj⟩

/-- C8, amended: with all ids resolving and the shifted item found at
position `i` of the group's stable ascending-by-start ordering, a zero delta
is a no-op, and a nonzero delta shifts exactly the members from position `i`
onward — each keeping its calendar-day span — leaving earlier members
(including any sibling tied on the same start date that is ordered before the
shifted item) and all tasks outside the group unchanged; the shifted item
lands on `previousItem.end + newGapDays`, and every shifted member's start is
on or after the shifted item's original start. -/
theorem handleUpdateTaskInterval_spec (st : ProjState) (gid : String)
    (pid sid gap : Int) (prev ts : Task) (grp : TaskGroup) (i : Nat)
    (hp : st.tasks.find? (fun t => t.id == pid) = some prev)
    (hs : st.tasks.find? (fun t => t.id == sid) = some ts)
    (hg : st.taskGroups.find? (fun g => g.id == gid) = some grp)
    (hi : (sortedGroupTasks st grp).findIdx? (fun t => t.id == sid) = some i) :
    (prev.«end» + gap - ts.start = 0 →
       handleUpdateTaskInterval st gid pid sid gap = st)
    ∧ (prev.«end» + gap - ts.start ≠ 0 →
       (handleUpdateTaskInterval st gid pid sid gap).tasks
         = st.tasks.map (fun t =>
             if (((sortedGroupTasks st grp).drop i).map Task.id).contains t.id then
               { t with start := t.start + (prev.«end» + gap - ts.start),
                        «end» := t.start + (prev.«end» + gap - ts.start)
                                 + (t.«end» - t.start) }
             else t))
    ∧ ts ∈ (sortedGroupTasks st grp).drop i
    ∧ (∀ t ∈ (sortedGroupTasks st grp).drop i, ts.start ≤ t.start)
    ∧ ts.start + (prev.«end» + gap - ts.start) = prev.«end» + gap := by
  have hts : ∃ h : i < (sortedGroupTasks st grp).length,
      (sortedGroupTasks st grp).get ⟨i, h⟩ = ts := by
    rcases findIdx?_spec _ i hi with ⟨hlt, hpi⟩
    refine ⟨hlt, ?_⟩
    have hmem := List.get_mem (sortedGroupTasks st grp) i hlt
    have hfind := mem_sortedGroupTasks_find? st grp _ hmem
    rw [beq_iff_eq] at hpi
    rw [hpi, hs] at hfind
    injection hfind with h'
    exact h'.symm
  rcases hts with ⟨hlt, hget⟩
  have hgetElem : (sortedGroupTasks st grp)[i] = ts := hget
  have hdrop : (sortedGroupTasks st grp).drop i
      = ts :: (sortedGroupTasks st grp).drop (i + 1) := by
    rw [List.drop_eq_getElem_cons hlt, hgetElem]
  refine ⟨?_, ?_, ?_, ?_, by omega⟩
  · intro h0
    unfold handleUpdateTaskInterval
    rw [hp, hs]
    simp only [addDays, differenceInDays]
    rw [if_pos h0]
  · intro h0
    unfold handleUpdateTaskInterval
    rw [hp, hs]
    simp only [addDays, differenceInDays]
    rw [if_neg h0, hg]
    dsimp only
    rw [hi]
  · rw [hdrop]
    exact List.mem_cons_self _ _
  · have hdp := (sortedGroupTasks_sorted st grp).sublist
      (List.drop_sublist i (sortedGroupTasks st grp))
    rw [hdrop] at hdp
    rcases List.pairwise_cons.mp hdp with ⟨hall, _⟩
    intro t ht
    rw [hdrop] at ht
    rcases List.mem_cons.mp ht with rfl | ht'
    · exact le_refl _
    · exact hall t ht'

/-- The group for the C8 examples. -/
def intExG : TaskGroup := { id := "g", taskIds := [1, 2], color := "c" }

/-- Predecessor outside the group, ending day 5. -/
def intExP : Task := { id := 3, name := "P", start := 0, «end» := 5 }

/-- Group member ordered first among the start-date tie. -/
def intExA : Task := { id := 1, name := "A", start := 10, «end» := 12, groupId := some "g" }

/-- The shifted member, tied on start with `intExA` but ordered after it. -/
def intExB : Task := { id := 2, name := "B", start := 10, «end» := 11, groupId := some "g" }

def intExSt : ProjState := { tasks := [intExP, intExA, intExB], taskGroups := [intExG] }

/-- C8, counterexample to the claim as stated: shifting `intExB` to
`intExP.end + 7 = 12` (delta 2) leaves `intExA` at start 10 even though
`intExA`'s current start is on (equal to) `intExB`'s original start, so the
claim requires it to shift to 12 — only the stable-sort suffix beginning at
the shifted item moves. -/
theorem handleUpdateTaskInterval_tie_not_shifted :
    (handleUpdateTaskInterval intExSt "g" 3 2 7).tasks.map Task.start = [0, 10, 12]
    ∧ intExA.start = intExB.start
    ∧ intExA.id ∈ intExG.taskIds
    ∧ intExP.«end» + 7 - intExB.start = 2 := by decide

/-- Witness for C8's amended theorem: the nonzero-delta branch at the tie
example. -/
theorem handleUpdateTaskInterval_spec_witness :
    (handleUpdateTaskInterval intExSt "g" 3 2 7).tasks
      = intExSt.tasks.map (fun t =>
          if (((sortedGroupTasks intExSt intExG).drop 1).map Task.id).contains t.id then
            { t with start := t.start + (intExP.«end» + 7 - intExB.start),
                     «end» := t.start + (intExP.«end» + 7 - intExB.start)
                              + (t.«end» - t.start) }
          else t) :=
  (handleUpdateTaskInterval_spec intExSt "g" 3 2 7 intExP intExB intExG 1
      rfl rfl rfl (by decide)).2.1 (by decide)

/-! ## Claim C5: lane packing — first-fit and non-overlap -/

/-- Cells of the empty row read `false` at every index. -/
theorem emptyRow_getD (d : Nat) : emptyRow.getD d false = false := by
  by_cases hd : d < emptyRow.length
  · rw [List.getD_eq_getElem _ _ hd]
    unfold emptyRow
    rw [List.getElem_replicate]
  · exact List.getD_eq_default _ _ (by omega)

theorem occupy_length (row : List Bool) (s e : Nat) :
    (occupy row s e).length = row.length := by
  simp [occupy]

/-- Reading a cell of an occupied row: inside `s..e` it is `true`, elsewhere
it is the old cell. -/
theorem occupy_getD (row : List Bool) (s e d : Nat) (hd : d < row.length) :
    (occupy row s e).getD d false
      = if s ≤ d ∧ d ≤ e then true else row.getD d false := by
  have hd' : d < (occupy row s e).length := by rw [occupy_length]; exact hd
  rw [List.getD_eq_getElem _ _ hd']
  unfold occupy
  rw [List.getElem_map, List.getElem_range]
  by_cases h : s ≤ d ∧ d ≤ e
  · rw [if_pos (by simpa using h), if_pos h]
  · rw [if_neg (by simpa using h), if_neg h]

/-- Out-of-range cells of an occupied row read `false` when the old row's
did. -/
theorem occupy_getD_ge (row : List Bool) (s e d : Nat) (hd : row.length ≤ d) :
    (occupy row s e).getD d false = false :=
  List.getD_eq_default _ _ (by rw [occupy_length]; exact hd)

/-- `canPlace` in cell terms: the slice check succeeds exactly when every cell
of `s..e` is clear (cells beyond the row's length read `false`). -/
theorem spanClear_iff (row : List Bool) (s e : Nat) :
    spanClear row s e = true
      ↔ ∀ d, s ≤ d → d ≤ e → row.getD d false = false := by
  unfold spanClear
  rw [Bool.not_eq_true', List.any_eq_false]
  constructor
  · intro hall d hs he
    by_cases hd : d < row.length
    · have hidx : d - s < ((row.take (e + 1)).drop s).length := by
        rw [List.length_drop, List.length_take]
        omega
      have hval : ((row.take (e + 1)).drop s)[d - s] = row[d] := by
        rw [List.getElem_drop, List.getElem_take]
        have hds : s + (d - s) = d := by omega
        simp only [hds]
      have hmem : ((row.take (e + 1)).drop s)[d - s] ∈ (row.take (e + 1)).drop s :=
        List.getElem_mem hidx
      have hfalse := hall _ hmem
      rw [hval] at hfalse
      rw [List.getD_eq_getElem _ _ hd]
      simpa using hfalse
    · exact List.getD_eq_default _ _ (by omega)
  · intro h x hx
    rcases List.mem_iff_get.mp hx with ⟨⟨j, hj⟩, rfl⟩
    have hj' := hj
    rw [List.length_drop, List.length_take] at hj'
    have hval : ((row.take (e + 1)).drop s).get ⟨j, hj⟩ = row[s + j] := by
      rw [List.get_eq_getElem, List.getElem_drop, List.getElem_take]
    have h3 : s + j < row.length := by omega
    have hcell := h (s + j) (by omega) (by omega)
    rw [List.getD_eq_getElem _ _ h3] at hcell
    rw [hval]
    simp [hcell]

/-- The scan never returns an index beyond the row count. -/
theorem placeTask_fst_le (s e : Nat) :
    ∀ rows : List (List Bool), (placeTask s e rows).1 ≤ rows.length := by
  intro rows
  induction rows with
  | nil => simp [placeTask]
  | cons r rs ih =>
    unfold placeTask
    by_cases hc : spanClear r s e = true
    · rw [if_pos hc]
      simp
    · rw [if_neg hc]
      simpa using ih

/-- Every row before the chosen one is blocked. -/
theorem placeTask_blocked (s e : Nat) :
    ∀ (rows : List (List Bool)) (j : Nat), j < (placeTask s e rows).1 →
      spanClear (rows.getD j emptyRow) s e = false := by
  intro rows
  induction rows with
  | nil => intro j hj; simp [placeTask] at hj
  | cons r rs ih =>
    intro j hj
    unfold placeTask at hj
    by_cases hc : spanClear r s e = true
    · rw [if_pos hc] at hj
      simp at hj
    · rw [if_neg hc] at hj
      cases j with
      | zero =>
        rw [List.getD_cons_zero]
        exact Bool.eq_false_iff.mpr hc
      | succ j =>
        rw [List.getD_cons_succ]
        exact ih j (by simpa using hj)

/-- When the chosen index is an existing row, that row was clear. -/
theorem placeTask_clear (s e : Nat) :
    ∀ rows : List (List Bool), (placeTask s e rows).1 < rows.length →
      spanClear (rows.getD (placeTask s e rows).1 emptyRow) s e = true := by
  intro rows
  induction rows with
  | nil => intro h; simp [placeTask] at h
  | cons r rs ih =>
    intro h
    unfold placeTask at h ⊢
    by_cases hc : spanClear r s e = true
    · rw [if_pos hc] at h ⊢
      simpa using hc
    · rw [if_neg hc] at h ⊢
      simp only [List.getD_cons_succ]
      exact ih (by simpa using h)

/-- Number of rows after placement: one more lane exactly when every existing
lane was blocked (chosen index = old row count). -/
theorem placeTask_len (s e : Nat) :
    ∀ rows : List (List Bool),
      (placeTask s e rows).2.length
        = if (placeTask s e rows).1 = rows.length
          then rows.length + 1 else rows.length := by
  intro rows
  induction rows with
  | nil => simp [placeTask]
  | cons r rs ih =>
    unfold placeTask
    by_cases hc : spanClear r s e = true
    · rw [if_pos hc]
      simp
    · rw [if_neg hc]
      simp only [List.length_cons]
      by_cases hl : (placeTask s e rs).1 = rs.length
      · rw [if_pos (by omega), ih, if_pos hl]
      · rw [if_neg (by omega), ih, if_neg hl]

/-- Occupied cells survive a placement. -/
theorem placeTask_mono (s e : Nat) :
    ∀ (rows : List (List Bool)) (j d : Nat),
      (rows.getD j emptyRow).getD d false = true →
      ((placeTask s e rows).2.getD j emptyRow).getD d false = true := by
  intro rows
  induction rows with
  | nil =>
    intro j d h
    have h1 : ([] : List (List Bool)).getD j emptyRow = emptyRow :=
      List.getD_eq_default _ _ (by simp)
    rw [h1, emptyRow_getD] at h
    exact Bool.noConfusion h
  | cons r rs ih =>
    intro j d h
    unfold placeTask
    by_cases hc : spanClear r s e = true
    · rw [if_pos hc]
      cases j with
      | zero =>
        rw [List.getD_cons_zero] at h ⊢
        by_cases hd : d < r.length
        · rw [occupy_getD _ _ _ _ hd]
          split
          · rfl
          · exact h
        · rw [List.getD_eq_default _ _ (by omega)] at h
          exact Bool.noConfusion h
      | succ j =>
        rw [List.getD_cons_succ] at h ⊢
        exact h
    · rw [if_neg hc]
      cases j with
      | zero =>
        rw [List.getD_cons_zero] at h ⊢
        exact h
      | succ j =>
        rw [List.getD_cons_succ] at h ⊢
        exact ih j d h

/-- After placement the chosen row holds the whole span `s..e` (rows are
7 cells wide and `e < 7`). -/
theorem placeTask_marks (s e : Nat) (he : e < 7) :
    ∀ rows : List (List Bool), (∀ r ∈ rows, r.length = 7) →
      ∀ d, s ≤ d → d ≤ e →
        ((placeTask s e rows).2.getD (placeTask s e rows).1 emptyRow).getD d false
          = true := by
  intro rows
  induction rows with
  | nil =>
    intro _ d hs hd
    unfold placeTask
    rw [List.getD_cons_zero]
    rw [occupy_getD _ _ _ _ (by simp [emptyRow]; omega)]
    rw [if_pos ⟨hs, hd⟩]
  | cons r rs ih =>
    intro hWF d hs hd
    unfold placeTask
    by_cases hc : spanClear r s e = true
    · rw [if_pos hc]
      rw [List.getD_cons_zero]
      have hr : r.length = 7 := hWF r (List.mem_cons_self _ _)
      rw [occupy_getD _ _ _ _ (by omega)]
      rw [if_pos ⟨hs, hd⟩]
    · rw [if_neg hc]
      rw [List.getD_cons_succ]
      exact ih (fun r' hr' => hWF r' (List.mem_cons_of_mem _ hr')) d hs hd

/-- Before placement the chosen row's span `s..e` is entirely clear. -/
theorem placeTask_target_clear (s e : Nat) :
    ∀ (rows : List (List Bool)) (d : Nat), s ≤ d → d ≤ e →
      (rows.getD (placeTask s e rows).1 emptyRow).getD d false = false := by
  intro rows
  induction rows with
  | nil =>
    intro d _ _
    have h1 : ([] : List (List Bool)).getD (placeTask s e []).1 emptyRow = emptyRow :=
      List.getD_eq_default _ _ (by simp)
    rw [h1, emptyRow_getD]
  | cons r rs ih =>
    intro d hs hd
    unfold placeTask
    by_cases hc : spanClear r s e = true
    · rw [if_pos hc]
      rw [List.getD_cons_zero]
      exact (spanClear_iff r s e).mp hc d hs hd
    · rw [if_neg hc]
      rw [List.getD_cons_succ]
      exact ih d hs hd

/-- All rows stay 7 cells wide across a placement. -/
theorem placeTask_rowsWF (s e : Nat) :
    ∀ rows : List (List Bool), (∀ r ∈ rows, r.length = 7) →
      ∀ r ∈ (placeTask s e rows).2, r.length = 7 := by
  intro rows
  induction rows with
  | nil =>
    intro _ r hr
    unfold placeTask at hr
    rcases List.mem_singleton.mp hr with rfl
    rw [occupy_length]
    simp [emptyRow]
  | cons r0 rs ih =>
    intro hWF r hr
    unfold placeTask at hr
    by_cases hc : spanClear r0 s e = true
    · rw [if_pos hc] at hr
      rcases List.mem_cons.mp hr with rfl | hr'
      · rw [occupy_length]
        exact hWF r0 (List.mem_cons_self _ _)
      · exact hWF r (List.mem_cons_of_mem _ hr')
    · rw [if_neg hc] at hr
      rcases List.mem_cons.mp hr with rfl | hr'
      · exact hWF r (List.mem_cons_self _ _)
      · exact ih (fun x hx => hWF x (List.mem_cons_of_mem _ hx)) r hr'

/-- Two placements' clipped day-spans share at least one day. -/
def spansOverlap (p q : Placement) : Prop :=
  ∃ d : Nat, p.startDay ≤ d ∧ d < p.startDay + p.span
    ∧ q.startDay ≤ d ∧ d < q.startDay + q.span

/-- Occupancy rows are 7 cells wide. -/
def RowsWF (rows : List (List Bool)) : Prop := ∀ r ∈ rows, r.length = 7

/-- A placement's span fits the week and its cells are occupied in its row. -/
def PlacementMarked (rows : List (List Bool)) (pl : Placement) : Prop :=
  pl.startDay + pl.span ≤ 7
  ∧ ∀ d, pl.startDay ≤ d → d < pl.startDay + pl.span →
      (rows.getD pl.row emptyRow).getD d false = true

/-- Invariant of the packing fold: well-formed rows, every emitted placement
marked in the occupancy, and no same-lane overlap among emitted placements. -/
def PackInv (acc : List Placement × List (List Bool)) : Prop :=
  RowsWF acc.2
  ∧ (∀ pl ∈ acc.1, PlacementMarked acc.2 pl)
  ∧ List.Pairwise (fun p q => p.row = q.row → ¬ spansOverlap p q) acc.1

/-- One packing step preserves the invariant, for a task whose clipped offsets
lie in the window. -/
theorem packWeekStep_inv (ws : Int) (acc : List Placement × List (List Bool))
    (t : Task) (hs6 : startDayOf ws t ≤ 6) (he6 : endDayOf ws t ≤ 6)
    (hInv : PackInv acc) : PackInv (packWeekStep ws acc t) := by
  obtain ⟨hWF, hMark, hPW⟩ := hInv
  refine ⟨?_, ?_, ?_⟩
  · exact placeTask_rowsWF _ _ acc.2 hWF
  · intro pl hpl
    simp only [packWeekStep, List.mem_append, List.mem_singleton] at hpl
    rcases hpl with hold | rfl
    · obtain ⟨hb, hm⟩ := hMark pl hold
      exact ⟨hb, fun d h1 h2 => placeTask_mono _ _ acc.2 _ _ (hm d h1 h2)⟩
    · constructor
      · simp only []
        omega
      · intro d h1 h2
        simp only [] at h1 h2 ⊢
        have hde : d ≤ endDayOf ws t := by omega
        exact placeTask_marks _ _ (by omega) acc.2 hWF d h1 hde
  · simp only [packWeekStep]
    rw [List.pairwise_append]
    refine ⟨hPW, List.pairwise_singleton _ _, ?_⟩
    intro p hp q hq hrow hov
    rcases List.mem_singleton.mp hq with rfl
    rcases hov with ⟨d, h1, h2, h3, h4⟩
    simp only [] at h3 h4 hrow
    have hde : d ≤ endDayOf ws t := by omega
    have hmarked := (hMark p hp).2 d h1 h2
    rw [hrow] at hmarked
    have hclear := placeTask_target_clear (startDayOf ws t) (endDayOf ws t)
      acc.2 d h3 hde
    rw [hclear] at hmarked
    exact Bool.noConfusion hmarked

/-- Tasks selected for a week have clipped offsets inside the 7-day window. -/
theorem tasksInWeek_bounds (tasks : List Task) (ws : Int) :
    ∀ t ∈ tasksInWeek tasks ws, startDayOf ws t ≤ 6 ∧ endDayOf ws t ≤ 6 := by
  intro t ht
  have ht' := (List.perm_insertionSort taskSortLe _).mem_iff.mp ht
  rw [List.mem_filter] at ht'
  have hw := ht'.2
  simp only [windowFilter, Bool.and_eq_true, decide_eq_true_eq] at hw
  unfold startDayOf endDayOf differenceInDays
  constructor
  · split
    · omega
    · omega
  · split
    · omega
    · omega

/-- The packing fold carries the invariant. -/
theorem packFold_inv (ws : Int) :
    ∀ (ts : List Task) (acc : List Placement × List (List Bool)),
      (∀ t ∈ ts, startDayOf ws t ≤ 6 ∧ endDayOf ws t ≤ 6) →
      PackInv acc → PackInv (ts.foldl (packWeekStep ws) acc) := by
  intro ts
  induction ts with
  | nil => intro acc _ h; exact h
  | cons t ts ih =>
    intro acc hb hInv
    exact ih _ (fun x hx => hb x (List.mem_cons_of_mem _ hx))
      (packWeekStep_inv ws acc t (hb t (List.mem_cons_self _ _)).1
        (hb t (List.mem_cons_self _ _)).2 hInv)

/-- The first-fit contract of one placement scan: the chosen lane index never
exceeds the lane count, every lane below it is blocked, an existing chosen
lane was clear and no lane is added, and a new lane is added exactly when
every existing lane was blocked. -/
def FirstFitAt (rows : List (List Bool)) (s e : Nat) : Prop :=
  (placeTask s e rows).1 ≤ rows.length
  ∧ (∀ j, j < (placeTask s e rows).1 → spanClear (rows.getD j emptyRow) s e = false)
  ∧ ((placeTask s e rows).1 < rows.length →
       spanClear (rows.getD (placeTask s e rows).1 emptyRow) s e = true
       ∧ (placeTask s e rows).2.length = rows.length)
  ∧ ((placeTask s e rows).1 = rows.length →
       (placeTask s e rows).2.length = rows.length + 1)

/-- C5: the week packing is first-fit and sound — no two placements sharing a
lane have overlapping clipped day-spans, and every placement scan picks the
lowest-indexed lane whose occupancy does not intersect the clipped span,
opening a new lane only when every existing lane is blocked. -/
theorem packWeek_first_fit :
    (∀ (tasks : List Task) (ws : Int),
        List.Pairwise (fun p q => p.row = q.row → ¬ spansOverlap p q)
          (packWeek tasks ws).1)
    ∧ (∀ (rows : List (List Bool)) (s e : Nat), FirstFitAt rows s e) := by
  constructor
  · intro tasks ws
    have h := packFold_inv ws (tasksInWeek tasks ws) ([], [])
      (tasksInWeek_bounds tasks ws)
      ⟨fun r hr => absurd hr (List.not_mem_nil r),
       fun pl hpl => absurd hpl (List.not_mem_nil pl),
       List.Pairwise.nil⟩
    exact h.2.2
  · intro rows s e
    refine ⟨placeTask_fst_le s e rows, placeTask_blocked s e rows, ?_, ?_⟩
    · intro hlt
      refine ⟨placeTask_clear s e rows hlt, ?_⟩
      rw [placeTask_len, if_neg (by omega)]
    · intro heq
      rw [placeTask_len, if_pos heq]

/-- Tasks of the spec's §8 packing scenario: A spans days 0–4, B days 2–6 of
the week starting day 0. -/
def packExA : Task := { id := 1, name := "A", start := 0, «end» := 4 }

def packExB : Task := { id := 2, name := "B", start := 2, «end» := 6 }

/-- Witness for C5 at the spec's scenario: A takes lane 0, B lane 1, and the
first-fit contract holds at a concrete occupancy. -/
theorem packWeek_first_fit_witness :
    (packWeek [packExA, packExB] 0).1.map Placement.row = [0, 1]
    ∧ List.Pairwise (fun p q => p.row = q.row → ¬ spansOverlap p q)
        (packWeek [packExA, packExB] 0).1
    ∧ FirstFitAt [emptyRow] 2 6 :=
  ⟨by decide, packWeek_first_fit.1 [packExA, packExB] 0,
   packWeek_first_fit.2 [emptyRow] 2 6⟩

end Sched
